import Mathlib

/-!
Shallow embedding of the multipixel chunk core.

The sources at hand are `src/chunk.hpp` (the `Chunk` class declaration:
fields `position`, `chunk_size`, `modified`, `image`, `linked_sessions`,
`linked_sessions_empty`, and the operations `encodeChunkData`,
`decodeChunkData_nolock`, `setPixels`, `linkSession`, `unlinkSession`,
`isLinkedSessionsEmpty`, `isModified`, `setModified`, `getPixel_nolock`)
and `src/plugin.cpp` (the plugin manager and the Lua scripting API,
including `loadPlugin` and `mapSetPixel`).  The bodies of the `Chunk`
methods and of `ChunkSystem`'s coordinate helpers live in translation
units that are not part of the source set, so those operations are
modelled from the specification (each such definition says so in its
doc comment); `loadPlugin` and `mapSetPixel` are embedded directly from
`plugin.cpp`.
-/

namespace Multipixel

/-- `Int2` from `util/types.hpp`: a signed 2-D integer coordinate. -/
structure Int2 where
  x : Int
  y : Int
deriving DecidableEq, Repr

/-- `UInt2` from `util/types.hpp`: an unsigned 2-D integer coordinate. -/
structure UInt2 where
  x : Nat
  y : Nat
deriving DecidableEq, Repr

/-- `ChunkPixel` from `chunk.hpp`: a pixel edit, a local position together
with the three 8-bit color channels. -/
structure ChunkPixel where
  pos : UInt2
  r : Nat
  g : Nat
  b : Nat
deriving DecidableEq, Repr

/-- The error taxonomy of the spec (section 7): an edit outside the chunk
bounds, and a decode failure on load. -/
inductive ChunkError where
  | InvalidPosition
  | CorruptChunkData
deriving DecidableEq, Repr

/-! ## Coordinate math -/

/-- Modelled from the spec: the body of `ChunkSystem::globalPixelPosToChunkPos`
is not among the sources (only its call site in `plugin.cpp` is).  Per the
spec, `toChunkCoordinate` is floor division, correct for negative inputs
(it must not truncate toward zero), applied component-wise. -/
def globalPixelPosToChunkPos (g : Int2) (s : Int) : Int2 :=
  ⟨g.x.fdiv s, g.y.fdiv s⟩

/-- Modelled from the spec: the body of
`ChunkSystem::globalPixelPosToLocalPixelPos` is not among the sources.  Per
the spec, `toLocalPosition` is a Euclidean modulo whose result is always
non-negative, applied component-wise; the result is an unsigned coordinate. -/
def globalPixelPosToLocalPixelPos (g : Int2) (s : Int) : UInt2 :=
  ⟨(g.x.fmod s).toNat, (g.y.fmod s).toNat⟩

/-! ## Chunk state -/

/-- The lazily allocated pixel buffer of a chunk: `blank` when the buffer was
never allocated (meaning: entirely default background color), `populated`
with the list of per-pixel `(r, g, b)` triples (row-major) otherwise. -/
inductive ChunkImage where
  | blank : ChunkImage
  | populated : List (Nat × Nat × Nat) → ChunkImage
deriving DecidableEq, Repr

/-- Well-formedness of a chunk image for chunk size `s`: a populated buffer
holds exactly `s * s` pixels (the buffer, once allocated, is never resized). -/
def imageWF (s : Nat) : ChunkImage → Bool
  | .blank => true
  | .populated px => px.length == s * s

/-- The `Chunk` class of `chunk.hpp`: its position, the (immutable) chunk
size, the `modified` flag, the lazily allocated image, the interest set
`linked_sessions` (session references modelled as natural numbers) and the
cached `linked_sessions_empty` flag. -/
structure Chunk where
  position : Int2
  chunk_size : Nat
  modified : Bool
  image : ChunkImage
  linked_sessions : List Nat
  linked_sessions_empty : Bool
deriving DecidableEq, Repr

/-- Modelled from the spec: the default background color a freshly allocated
buffer is filled with (`allocateImage_nolock`'s body is not among the
sources); its exact value is immaterial to the properties below. -/
def backgroundColor : Nat × Nat × Nat := (255, 255, 255)

/-- Row-major index of a local pixel position inside the buffer. -/
def pixelIndex (s : Nat) (p : UInt2) : Nat := p.y * s + p.x

/-- Whether a local position lies inside `[0, s)` on both axes. -/
def inBounds (s : Nat) (p : UInt2) : Bool := p.x < s && p.y < s

/-- The pixel buffer a chunk's operations act on: the allocated buffer, or
the buffer `allocateImage_nolock` would produce for a blank chunk (all
pixels the default background color). -/
def allocatedPixels (c : Chunk) : List (Nat × Nat × Nat) :=
  match c.image with
  | .blank => List.replicate (c.chunk_size * c.chunk_size) backgroundColor
  | .populated px => px

/-! ## Codec -/

/-- Serializes a pixel list into the flat byte stream (three color values per
pixel, in order). -/
def flattenPixels : List (Nat × Nat × Nat) → List Int
  | [] => []
  | (r, g, b) :: rest => (r : Int) :: (g : Int) :: (b : Int) :: flattenPixels rest

/-- Parses a flat byte stream back into a pixel list; fails on a stream whose
length is not a multiple of three or that holds a negative value. -/
def unflattenPixels : List Int → Option (List (Nat × Nat × Nat))
  | [] => some []
  | r :: g :: b :: rest =>
    if 0 ≤ r ∧ 0 ≤ g ∧ 0 ≤ b then
      (unflattenPixels rest).map (fun l => (r.toNat, g.toNat, b.toNat) :: l)
    else none
  | _ => none

/-- Modelled from the spec: the body of `Chunk::encodeChunkData_nolock` is not
among the sources.  Per the spec (section 6), the encoded payload is the
chunk identifier (the chunk coordinate, two signed integers) followed by
either a single sentinel marker meaning "blank, no stored bytes"
(marker `0`) or a lossless encoding of the pixel bytes (marker `1`, then
the declared chunk size, then the color values); the exact framing is an
implementation choice. -/
def encodeChunkData (c : Chunk) : List Int :=
  c.position.x :: c.position.y ::
    (match c.image with
     | .blank => [0]
     | .populated pixels => 1 :: (c.chunk_size : Int) :: flattenPixels pixels)

/-- Modelled from the spec: the body of `Chunk::decodeChunkData_nolock` is not
among the sources.  Inverse of `encodeChunkData`; fails with
`CorruptChunkData` when the stream is malformed or its declared size does
not match `chunk_size`, and the sentinel path does not allocate a buffer. -/
def decodeChunkData (s : Nat) (data : List Int) :
    Except ChunkError (Int2 × ChunkImage) :=
  match data with
  | px :: py :: tag :: rest =>
    if tag = 0 then
      if rest = [] then .ok (⟨px, py⟩, .blank) else .error .CorruptChunkData
    else if tag = 1 then
      match rest with
      | sz :: body =>
        if sz = (s : Int) then
          match unflattenPixels body with
          | some pixels =>
            if pixels.length = s * s then .ok (⟨px, py⟩, .populated pixels)
            else .error .CorruptChunkData
          | none => .error .CorruptChunkData
        else .error .CorruptChunkData
      | [] => .error .CorruptChunkData
    else .error .CorruptChunkData
  | _ => .error .CorruptChunkData

/-- Modelled from the spec: the body of the `Chunk` constructor is not among
the sources.  It receives the persisted bytes (or nothing, when the storage
collaborator had none); on decode failure the chunk falls back to blank —
the failure is recovered locally, never propagated.  A fresh chunk is not
modified and has no linked sessions. -/
def mkChunk (s : Nat) (pos : Int2) (data : Option (List Int)) : Chunk :=
  { position := pos
    chunk_size := s
    modified := false
    image :=
      match data with
      | none => .blank
      | some bytes =>
        match decodeChunkData s bytes with
        | .ok (_, img) => img
        | .error _ => .blank
    linked_sessions := []
    linked_sessions_empty := true }

/-! ## Pixel mutation -/

/-- One edit of a batch: writes the edit's color at its local position when
the position is in bounds, and leaves the buffer unchanged otherwise (that
single edit is dropped). -/
def applyEdit (s : Nat) (buf : List (Nat × Nat × Nat)) (e : ChunkPixel) :
    List (Nat × Nat × Nat) :=
  if inBounds s e.pos then buf.set (pixelIndex s e.pos) (e.r, e.g, e.b) else buf

/-- Applies a batch of edits to a buffer, in batch order. -/
def applyEditsToBuffer (s : Nat) (buf : List (Nat × Nat × Nat))
    (edits : List ChunkPixel) : List (Nat × Nat × Nat) :=
  edits.foldl (applyEdit s) buf

/-- The number of edits of a batch that are applied (those in bounds). -/
def countApplied (s : Nat) (edits : List ChunkPixel) : Nat :=
  (edits.filter (fun e => inBounds s e.pos)).length

/-- The per-edit failures a batch reports: one `InvalidPosition` for each
edit whose local position is out of bounds. -/
def editErrors (s : Nat) (edits : List ChunkPixel) : List ChunkError :=
  (edits.filter (fun e => !inBounds s e.pos)).map (fun _ => .InvalidPosition)

/-- Modelled from the spec: the body of `Chunk::setPixels` is not among the
sources.  Under one lock acquisition it allocates the buffer if needed
(filled with the default background), writes every in-bounds edit in batch
order, drops each out-of-bounds edit with `InvalidPosition` without
aborting the batch, and sets `modified` if at least one edit applied. -/
def setPixels (c : Chunk) (edits : List ChunkPixel) : Chunk × List ChunkError :=
  ({ c with
      image := .populated (applyEditsToBuffer c.chunk_size (allocatedPixels c) edits)
      modified := c.modified || (countApplied c.chunk_size edits != 0) },
   editErrors c.chunk_size edits)

/-- Modelled from the spec: `Chunk::getPixel_nolock`, reading one pixel of
the (conceptually allocated) buffer. -/
def getPixel (c : Chunk) (p : UInt2) : Nat × Nat × Nat :=
  (allocatedPixels c).getD (pixelIndex c.chunk_size p) backgroundColor

/-! ## Interest tracking and the modified flag -/

/-- Modelled from the spec: the body of `Chunk::linkSession` is not among the
sources.  Inserts the session reference into the interest set (ignorable if
already present) and updates the cached empty flag under the same lock. -/
def linkSession (c : Chunk) (s : Nat) : Chunk :=
  let sessions :=
    if s ∈ c.linked_sessions then c.linked_sessions else c.linked_sessions ++ [s]
  { c with linked_sessions := sessions, linked_sessions_empty := sessions.isEmpty }

/-- Modelled from the spec: the body of `Chunk::unlinkSession` is not among
the sources.  Removes the reference (a no-op when not present) and updates
the cached empty flag under the same lock. -/
def unlinkSession (c : Chunk) (s : Nat) : Chunk :=
  let sessions := c.linked_sessions.erase s
  { c with linked_sessions := sessions, linked_sessions_empty := sessions.isEmpty }

/-- `Chunk::isLinkedSessionsEmpty` (the spec's `hasNoInterest()`): the fast
read of the cached empty flag. -/
def isLinkedSessionsEmpty (c : Chunk) : Bool := c.linked_sessions_empty

/-- `Chunk::isModified`. -/
def isModified (c : Chunk) : Bool := c.modified

/-- `Chunk::setModified`. -/
def setModified (c : Chunk) (n : Bool) : Chunk := { c with modified := n }

/-- The operations a chunk undergoes after construction: a batched pixel
mutation, a successful persistence flush (which clears `modified`), and
linking/unlinking a session. -/
inductive ChunkOp where
  | setPixels (edits : List ChunkPixel)
  | flush
  | link (session : Nat)
  | unlink (session : Nat)
deriving DecidableEq, Repr

/-- One step of the chunk's life: the effect of one operation on its state.
A successful flush is `setModified false`, as the eviction/persistence path
performs after saving the encoded bytes. -/
def stepOp (c : Chunk) : ChunkOp → Chunk
  | .setPixels edits => (setPixels c edits).1
  | .flush => setModified c false
  | .link s => linkSession c s
  | .unlink s => unlinkSession c s

/-! ## The scripting API (`plugin.cpp`) -/

/-- From `plugin.cpp` (`loadPlugin`'s validation loop): a plugin name
character is valid when it is a lowercase or uppercase letter, a digit, an
underscore or a hyphen. -/
def validPluginChar (c : Char) : Bool :=
  (decide ('a' ≤ c) && decide (c ≤ 'z')) || (decide ('A' ≤ c) && decide (c ≤ 'Z')) ||
    (decide ('0' ≤ c) && decide (c ≤ '9')) || c == '_' || c == '-'

/-- From `plugin.cpp` (lines 121–122): the plugin directory is formatted by
`snprintf(dir, sizeof(dir), "plugins/%s/", name)` into a 256-byte stack
buffer, so the formatted path is silently truncated to its first 255
characters (the last byte holds the terminator; every name reaching this
point has passed validation and is ASCII, so bytes and characters
coincide). -/
def pluginDirOf (name : String) : String :=
  String.mk (("plugins/" ++ name ++ "/").data.take 255)

/-- From `plugin.cpp` (`PluginManager::P::loadPlugin`, lines 108–133): scans
the name; on the first character outside the allowed set it returns
without attempting any load; otherwise it constructs the plugin from the
directory `snprintf` produced (`plugins/<name>/`, truncated to the
256-byte buffer).  The result is the directory the load proceeds from, or
`none` when the name was rejected. -/
def loadPluginDir (name : String) : Option String :=
  if name.data.all validPluginChar then some (pluginDirOf name) else none

/-- The boolean result `loadPlugin` returns: `false` exactly when the name
was rejected (a load failure after validation is caught and still
returns `true`). -/
def loadPlugin (name : String) : Bool := (loadPluginDir name).isSome

/-- From `plugin.cpp` (the `mapSetPixel` Lua API, lines 335–346): resolves the
owning chunk coordinate, asks the chunk system for the chunk, and returns
without doing anything when none is returned; otherwise it queues one pixel
edit at the local position.  The result is the chunk coordinate and the
queued edit, or `none` when the call was a silent no-op. -/
def mapSetPixel (s : Int) (getChunk : Int2 → Option Chunk)
    (global_x global_y : Int) (r g b : Nat) : Option (Int2 × ChunkPixel) :=
  let global : Int2 := ⟨global_x, global_y⟩
  let chunk_pos := globalPixelPosToChunkPos global s
  match getChunk chunk_pos with
  | none => none
  | some _ =>
    some (chunk_pos,
      { pos := globalPixelPosToLocalPixelPos global s, r := r, g := g, b := b })

/-! ## Theorems -/

/-- One component of the coordinate round trip: floor division times the
size plus the Euclidean remainder recovers the input, and the remainder is
below the size. -/
theorem fdiv_fmod_component (a s : Int) (h : 0 < s) :
    a.fdiv s * s + ((a.fmod s).toNat : Int) = a ∧ ((a.fmod s).toNat : Int) < s := by
  have hmod : a.fmod s = a % s := Int.fmod_eq_emod a h.le
  have hnn : 0 ≤ a.fmod s := by
    rw [hmod]
    exact Int.emod_nonneg a (by omega)
  have hcast : ((a.fmod s).toNat : Int) = a.fmod s := Int.toNat_of_nonneg hnn
  constructor
  · rw [hcast, Int.mul_comm]
    exact Int.fdiv_add_fmod a s
  · rw [hcast, hmod]
    exact Int.emod_lt_of_pos a h

/-- C2: for every global pixel coordinate (including negative components)
and positive chunk size, the chunk coordinate (floor division) times the
size plus the local position (Euclidean modulo) recovers the global
coordinate component-wise, and each local component lies in `[0, s)`
(the lower bound holds because the local position is unsigned). -/
theorem chunkPos_mul_add_localPos (g : Int2) (s : Int) (h : 0 < s) :
    (globalPixelPosToChunkPos g s).x * s + ((globalPixelPosToLocalPixelPos g s).x : Int) = g.x ∧
    (globalPixelPosToChunkPos g s).y * s + ((globalPixelPosToLocalPixelPos g s).y : Int) = g.y ∧
    ((globalPixelPosToLocalPixelPos g s).x : Int) < s ∧
    ((globalPixelPosToLocalPixelPos g s).y : Int) < s := by
  obtain ⟨hx1, hx2⟩ := fdiv_fmod_component g.x s h
  obtain ⟨hy1, hy2⟩ := fdiv_fmod_component g.y s h
  exact ⟨hx1, hy1, hx2, hy2⟩

/-- Witness for C2 at the spec's end-to-end scenario: global `(17, -1)` with
chunk size 16 lands in chunk `(1, -1)` at local `(1, 15)`. -/
theorem chunkPos_mul_add_localPos_witness :
    ((globalPixelPosToChunkPos ⟨17, -1⟩ 16).x * 16 +
        ((globalPixelPosToLocalPixelPos ⟨17, -1⟩ 16).x : Int) = 17 ∧
      (globalPixelPosToChunkPos ⟨17, -1⟩ 16).y * 16 +
        ((globalPixelPosToLocalPixelPos ⟨17, -1⟩ 16).y : Int) = -1 ∧
      ((globalPixelPosToLocalPixelPos ⟨17, -1⟩ 16).x : Int) < 16 ∧
      ((globalPixelPosToLocalPixelPos ⟨17, -1⟩ 16).y : Int) < 16) ∧
    globalPixelPosToChunkPos ⟨17, -1⟩ 16 = ⟨1, -1⟩ ∧
    globalPixelPosToLocalPixelPos ⟨17, -1⟩ 16 = ⟨1, 15⟩ :=
  ⟨chunkPos_mul_add_localPos ⟨17, -1⟩ 16 (by decide), by decide, by decide⟩

/-- Unflattening inverts flattening. -/
theorem unflattenPixels_flattenPixels (l : List (Nat × Nat × Nat)) :
    unflattenPixels (flattenPixels l) = some l := by
  induction l with
  | nil => rfl
  | cons hd t ih =>
    obtain ⟨r, g, b⟩ := hd
    simp [flattenPixels, unflattenPixels, ih, Int.toNat_natCast]

/-- C1: decoding the bytes produced by full encoding yields the original
chunk state (position and image), for every well-formed chunk — in
particular for a blank chunk, a fully populated chunk, and a chunk with a
single non-default pixel. -/
theorem decode_encode_roundtrip (c : Chunk) (h : imageWF c.chunk_size c.image = true) :
    decodeChunkData c.chunk_size (encodeChunkData c) = .ok (c.position, c.image) := by
  cases himg : c.image with
  | blank => simp [encodeChunkData, decodeChunkData, himg]
  | populated px =>
    have hlen : px.length = c.chunk_size * c.chunk_size := by
      have := h
      rw [himg] at this
      simpa [imageWF] using this
    simp [encodeChunkData, decodeChunkData, himg, unflattenPixels_flattenPixels, hlen]

/-- Witness for C1: a 1×1 chunk carrying a single non-default pixel decodes
back from its encoding. -/
theorem decode_encode_roundtrip_witness :
    decodeChunkData 1 (encodeChunkData
        { position := ⟨1, -1⟩, chunk_size := 1, modified := true,
          image := .populated [(255, 0, 0)], linked_sessions := [],
          linked_sessions_empty := true }) =
      .ok (⟨1, -1⟩, .populated [(255, 0, 0)]) :=
  decode_encode_roundtrip
    { position := ⟨1, -1⟩, chunk_size := 1, modified := true,
      image := .populated [(255, 0, 0)], linked_sessions := [],
      linked_sessions_empty := true }
    (by decide)

/-- Every decode failure carries the `CorruptChunkData` error. -/
theorem decode_error_corrupt (s : Nat) (bytes : List Int) (e : ChunkError)
    (h : decodeChunkData s bytes = .error e) : e = .CorruptChunkData := by
  unfold decodeChunkData at h
  repeat' split at h
  all_goals simp_all

/-- C5: a byte stream whose declared size does not match `chunk_size` makes
decoding fail with `CorruptChunkData`, and on every decode failure the
constructed chunk falls back to blank (no pixel buffer allocated); the
constructor is total, so the failure is never propagated as a crash. -/
theorem decodeFull_corrupt_falls_back_blank (s : Nat) (pos : Int2) (bytes : List Int) :
    (∀ px py sz body, bytes = px :: py :: 1 :: sz :: body → sz ≠ (s : Int) →
      decodeChunkData s bytes = .error .CorruptChunkData) ∧
    (∀ e, decodeChunkData s bytes = .error e →
      e = .CorruptChunkData ∧ (mkChunk s pos (some bytes)).image = .blank) := by
  constructor
  · intro px py sz body hbytes hsz
    subst hbytes
    simp [decodeChunkData, hsz]
  · intro e h
    refine ⟨decode_error_corrupt s bytes e h, ?_⟩
    simp [mkChunk, h]

/-- Witness for C5: with chunk size 2, a stream declaring size 5 fails with
`CorruptChunkData` and the constructed chunk is blank. -/
theorem decodeFull_corrupt_witness :
    decodeChunkData 2 [0, 0, 1, 5] = .error .CorruptChunkData ∧
      (mkChunk 2 ⟨0, 0⟩ (some [0, 0, 1, 5])).image = .blank := by
  have h := decodeFull_corrupt_falls_back_blank 2 ⟨0, 0⟩ [0, 0, 1, 5]
  have hfail := h.1 0 0 5 [] rfl (by decide)
  exact ⟨hfail, (h.2 .CorruptChunkData hfail).2⟩

/-- One edit never changes the buffer length. -/
theorem applyEdit_length (s : Nat) (buf : List (Nat × Nat × Nat)) (e : ChunkPixel) :
    (applyEdit s buf e).length = buf.length := by
  unfold applyEdit
  split <;> simp

/-- A batch never changes the buffer length. -/
theorem applyEditsToBuffer_length (s : Nat) (edits : List ChunkPixel)
    (buf : List (Nat × Nat × Nat)) :
    (applyEditsToBuffer s buf edits).length = buf.length := by
  induction edits generalizing buf with
  | nil => rfl
  | cons e t ih =>
    rw [show applyEditsToBuffer s buf (e :: t)
          = applyEditsToBuffer s (applyEdit s buf e) t from rfl,
      ih, applyEdit_length]

/-- Splitting a batch splits the fold. -/
theorem applyEditsToBuffer_append (s : Nat) (buf : List (Nat × Nat × Nat))
    (l1 l2 : List ChunkPixel) :
    applyEditsToBuffer s buf (l1 ++ l2)
      = applyEditsToBuffer s (applyEditsToBuffer s buf l1) l2 := by
  simp [applyEditsToBuffer, List.foldl_append]

/-- An in-bounds local position indexes inside the `s * s` buffer. -/
theorem pixelIndex_lt (s : Nat) (p : UInt2) (h : inBounds s p = true) :
    pixelIndex s p < s * s := by
  unfold inBounds at h
  simp only [Bool.and_eq_true, decide_eq_true_eq] at h
  obtain ⟨hx, hy⟩ := h
  unfold pixelIndex
  calc p.y * s + p.x < p.y * s + s := by omega
    _ = (p.y + 1) * s := by ring
    _ ≤ s * s := Nat.mul_le_mul_right s hy

/-- Row-major indexing is injective on in-bounds positions. -/
theorem pixelIndex_inj (s : Nat) (p q : UInt2) (hp : inBounds s p = true)
    (hq : inBounds s q = true) (h : pixelIndex s p = pixelIndex s q) : p = q := by
  unfold inBounds at hp hq
  simp only [Bool.and_eq_true, decide_eq_true_eq] at hp hq
  obtain ⟨hpx, hpy⟩ := hp
  obtain ⟨hqx, hqy⟩ := hq
  unfold pixelIndex at h
  have hs : 0 < s := by omega
  have e1 : (p.y * s + p.x) % s = p.x := by
    rw [Nat.mul_comm, Nat.mul_add_mod, Nat.mod_eq_of_lt hpx]
  have e2 : (q.y * s + q.x) % s = q.x := by
    rw [Nat.mul_comm, Nat.mul_add_mod, Nat.mod_eq_of_lt hqx]
  rw [h] at e1
  have hx : p.x = q.x := e1.symm.trans e2
  rw [hx] at h
  have hy : p.y = q.y := Nat.eq_of_mul_eq_mul_right hs (Nat.add_right_cancel h)
  cases p
  cases q
  simp_all

/-- `getD` after `set` at the written index gives the written value. -/
theorem getD_set_self (l : List (Nat × Nat × Nat)) (i : Nat) (v d : Nat × Nat × Nat)
    (h : i < l.length) : (l.set i v).getD i d = v := by
  simp [List.getD_eq_getElem?_getD, List.getElem?_set_self h]

/-- `getD` after `set` at another index is unchanged. -/
theorem getD_set_ne (l : List (Nat × Nat × Nat)) (i j : Nat) (v d : Nat × Nat × Nat)
    (h : i ≠ j) : (l.set i v).getD j d = l.getD j d := by
  simp [List.getD_eq_getElem?_getD, List.getElem?_set_ne h]

/-- The pixel a batch leaves at an in-bounds position `p`: the color of the
last edit of the batch addressing `p`, or the previous buffer content when
no edit addresses `p`. -/
theorem applyEditsToBuffer_getD (s : Nat) (p : UInt2) (hp : inBounds s p = true)
    (edits : List ChunkPixel) (buf : List (Nat × Nat × Nat)) (hlen : buf.length = s * s) :
    (applyEditsToBuffer s buf edits).getD (pixelIndex s p) backgroundColor =
      (match (edits.filter fun e => decide (e.pos = p)).getLast? with
       | some e => (e.r, e.g, e.b)
       | none => buf.getD (pixelIndex s p) backgroundColor) := by
  induction edits using List.reverseRecOn with
  | nil => rfl
  | append_singleton l e ih =>
    rw [applyEditsToBuffer_append, List.filter_append]
    by_cases he : e.pos = p
    · have hfil : (List.filter (fun e => decide (e.pos = p)) [e]) = [e] := by
        simp [List.filter, he]
      rw [hfil, List.getLast?_concat]
      have hbound : inBounds s e.pos = true := he ▸ hp
      have hidx : pixelIndex s e.pos = pixelIndex s p := by rw [he]
      have hlen2 : (applyEditsToBuffer s buf l).length = s * s := by
        rw [applyEditsToBuffer_length, hlen]
      show (applyEdit s (applyEditsToBuffer s buf l) e).getD (pixelIndex s p)
          backgroundColor = (e.r, e.g, e.b)
      rw [applyEdit, if_pos hbound, hidx]
      exact getD_set_self _ _ _ _ (by rw [hlen2]; exact pixelIndex_lt s p hp)
    · have hfil : (List.filter (fun e => decide (e.pos = p)) [e]) = [] := by
        simp [List.filter, he]
      rw [hfil, List.append_nil]
      show (applyEdit s (applyEditsToBuffer s buf l) e).getD (pixelIndex s p)
          backgroundColor = _
      rw [applyEdit]
      by_cases hbound : inBounds s e.pos = true
      · rw [if_pos hbound]
        have hne : pixelIndex s e.pos ≠ pixelIndex s p := by
          intro hcontra
          exact he (pixelIndex_inj s e.pos p hbound hp hcontra)
        rw [getD_set_ne _ _ _ _ _ hne]
        exact ih
      · rw [if_neg hbound]
        exact ih

/-- C3: within one `setPixels` batch, when at least one edit addresses the
in-bounds local position `p` (in particular when two do), the pixel at `p`
after the call holds the color of the last such edit in batch order. -/
theorem setPixels_last_write_wins (c : Chunk) (edits : List ChunkPixel) (p : UInt2)
    (e : ChunkPixel)
    (hwf : imageWF c.chunk_size c.image = true)
    (hp : inBounds c.chunk_size p = true)
    (hlast : (edits.filter fun e2 => decide (e2.pos = p)).getLast? = some e) :
    getPixel (setPixels c edits).1 p = (e.r, e.g, e.b) := by
  have hlen : (allocatedPixels c).length = c.chunk_size * c.chunk_size := by
    cases himg : c.image with
    | blank => simp [allocatedPixels, himg]
    | populated px =>
      have h2 := hwf
      rw [himg] at h2
      simpa [allocatedPixels, himg, imageWF] using h2
  have hmain := applyEditsToBuffer_getD c.chunk_size p hp edits (allocatedPixels c) hlen
  rw [hlast] at hmain
  simpa [getPixel, setPixels, allocatedPixels] using hmain

/-- Witness for C3: two edits at local `(0, 0)`; the pixel ends up with the
second edit's color. -/
theorem setPixels_last_write_wins_witness :
    getPixel (setPixels (mkChunk 2 ⟨0, 0⟩ none)
        [⟨⟨0, 0⟩, 1, 2, 3⟩, ⟨⟨0, 0⟩, 4, 5, 6⟩]).1 ⟨0, 0⟩ = (4, 5, 6) :=
  setPixels_last_write_wins (mkChunk 2 ⟨0, 0⟩ none)
    [⟨⟨0, 0⟩, 1, 2, 3⟩, ⟨⟨0, 0⟩, 4, 5, 6⟩] ⟨0, 0⟩ ⟨⟨0, 0⟩, 4, 5, 6⟩
    (by decide) (by decide) (by decide)

/-- C4: an out-of-bounds edit in a batch is reported as `InvalidPosition` and
only that edit is dropped: the resulting chunk state is exactly the state
the batch without it produces (every other edit still applies, the batch is
not aborted). -/
theorem setPixels_invalid_dropped (c : Chunk) (pre post : List ChunkPixel)
    (bad : ChunkPixel) (hbad : inBounds c.chunk_size bad.pos = false) :
    (setPixels c (pre ++ bad :: post)).1 = (setPixels c (pre ++ post)).1 ∧
    ChunkError.InvalidPosition ∈ (setPixels c (pre ++ bad :: post)).2 := by
  constructor
  · have himg : applyEditsToBuffer c.chunk_size (allocatedPixels c) (pre ++ bad :: post)
        = applyEditsToBuffer c.chunk_size (allocatedPixels c) (pre ++ post) := by
      rw [applyEditsToBuffer_append, applyEditsToBuffer_append]
      rw [show applyEditsToBuffer c.chunk_size
            (applyEditsToBuffer c.chunk_size (allocatedPixels c) pre) (bad :: post)
          = applyEditsToBuffer c.chunk_size
            (applyEdit c.chunk_size
              (applyEditsToBuffer c.chunk_size (allocatedPixels c) pre) bad) post
          from rfl]
      rw [applyEdit, if_neg (by simp [hbad])]
    have hcount : countApplied c.chunk_size (pre ++ bad :: post)
        = countApplied c.chunk_size (pre ++ post) := by
      simp [countApplied, List.filter_append, List.filter_cons, hbad]
    simp [setPixels, himg, hcount]
  · unfold setPixels editErrors
    apply List.mem_map.mpr
    refine ⟨bad, List.mem_filter.mpr ⟨by simp, by simp [hbad]⟩, rfl⟩

/-- Witness for C4: a batch with an out-of-bounds middle edit yields the same
chunk as the batch without it, and reports `InvalidPosition`. -/
theorem setPixels_invalid_dropped_witness :
    (setPixels (mkChunk 2 ⟨0, 0⟩ none)
        [⟨⟨0, 0⟩, 1, 1, 1⟩, ⟨⟨5, 0⟩, 2, 2, 2⟩, ⟨⟨1, 1⟩, 3, 3, 3⟩]).1
      = (setPixels (mkChunk 2 ⟨0, 0⟩ none)
        [⟨⟨0, 0⟩, 1, 1, 1⟩, ⟨⟨1, 1⟩, 3, 3, 3⟩]).1 ∧
    ChunkError.InvalidPosition ∈ (setPixels (mkChunk 2 ⟨0, 0⟩ none)
        [⟨⟨0, 0⟩, 1, 1, 1⟩, ⟨⟨5, 0⟩, 2, 2, 2⟩, ⟨⟨1, 1⟩, 3, 3, 3⟩]).2 :=
  setPixels_invalid_dropped (mkChunk 2 ⟨0, 0⟩ none)
    [⟨⟨0, 0⟩, 1, 1, 1⟩] [⟨⟨1, 1⟩, 3, 3, 3⟩] ⟨⟨5, 0⟩, 2, 2, 2⟩ (by decide)

/-- C6: the complete transition table of the `modified` flag: a pixel
mutation sets it exactly when at least one edit applied (and otherwise
leaves it), a successful flush clears it, and linking or unlinking a
session leaves it — so it is set by successful mutations, cleared only by
a flush, and changed by nothing else. -/
theorem modified_flag_transitions (c : Chunk) (op : ChunkOp) :
    (stepOp c op).modified =
      match op with
      | .setPixels edits => c.modified || (countApplied c.chunk_size edits != 0)
      | .flush => false
      | .link _ => c.modified
      | .unlink _ => c.modified := by
  cases op <;> rfl

/-- C7: a freshly constructed chunk has no interest; after exactly one link
of a session the fast-empty flag reads `false`; after the matching unlink
of that same session it reads `true` again. -/
theorem hasNoInterest_link_unlink (s : Nat) (pos : Int2) (d : Option (List Int))
    (sess : Nat) :
    isLinkedSessionsEmpty (mkChunk s pos d) = true ∧
    isLinkedSessionsEmpty (linkSession (mkChunk s pos d) sess) = false ∧
    isLinkedSessionsEmpty (unlinkSession (linkSession (mkChunk s pos d) sess) sess)
      = true := by
  refine ⟨rfl, ?_, ?_⟩
  · simp [isLinkedSessionsEmpty, linkSession, mkChunk]
  · simp [isLinkedSessionsEmpty, unlinkSession, linkSession, mkChunk]

/-- C8: unlinking a session that is not linked raises no error and leaves the
chunk — interest set and cached empty flag included — unchanged, provided
the cached flag agrees with the set (as it does for every chunk the
operations produce). -/
theorem unlink_not_linked_noop (c : Chunk) (s : Nat)
    (hmem : s ∉ c.linked_sessions)
    (hflag : c.linked_sessions_empty = c.linked_sessions.isEmpty) :
    unlinkSession c s = c := by
  obtain ⟨pos, cs, m, img, ls, fl⟩ := c
  have herase : ls.erase s = ls := List.erase_of_not_mem hmem
  simp only at hflag
  simp [unlinkSession, herase, hflag]

/-- Witness for C8: unlinking session 5 from a fresh chunk (which has no
links) is a no-op. -/
theorem unlink_not_linked_noop_witness :
    unlinkSession (mkChunk 2 ⟨0, 0⟩ none) 5 = mkChunk 2 ⟨0, 0⟩ none :=
  unlink_not_linked_noop (mkChunk 2 ⟨0, 0⟩ none) 5 (by decide) rfl

/-- C9: when the chunk system returns no chunk for the computed chunk
coordinate, the scripting call `mapSetPixel` returns without queueing any
pixel edit and without raising an error. -/
theorem mapSetPixel_no_chunk (s : Int) (getChunk : Int2 → Option Chunk)
    (gx gy : Int) (r g b : Nat)
    (h : getChunk (globalPixelPosToChunkPos ⟨gx, gy⟩ s) = none) :
    mapSetPixel s getChunk gx gy r g b = none := by
  simp [mapSetPixel, h]

/-- Witness for C9: with a chunk system holding no chunks, `mapSetPixel` is a
silent no-op. -/
theorem mapSetPixel_no_chunk_witness :
    mapSetPixel 16 (fun _ => none) 17 (-1) 255 0 0 = none :=
  mapSetPixel_no_chunk 16 (fun _ => none) 17 (-1) 255 0 0 rfl

/-- C10 (amended): `loadPlugin` rejects (returns `false`, attempting no
load) every name containing a character outside `[A-Za-z0-9_-]`; a name
drawn entirely from that set proceeds to constructing the plugin, from the
`plugins/<name>/` directory whenever that path fits `snprintf`'s 256-byte
buffer (names of at most 246 characters), and from its 255-character
truncation otherwise. -/
theorem loadPlugin_name_validation (name : String) :
    ((∃ ch ∈ name.data, validPluginChar ch = false) →
      loadPlugin name = false ∧ loadPluginDir name = none) ∧
    ((∀ ch ∈ name.data, validPluginChar ch = true) →
      loadPluginDir name = some (pluginDirOf name) ∧
      (name.length ≤ 246 → pluginDirOf name = "plugins/" ++ name ++ "/")) := by
  constructor
  · rintro ⟨ch, hmem, hinv⟩
    have hall : ¬ (name.data.all validPluginChar = true) := by
      rw [List.all_eq_true]
      intro hforall
      have hcontra := hforall ch hmem
      rw [hinv] at hcontra
      exact absurd hcontra (by decide)
    have hall2 : name.data.all validPluginChar = false := Bool.eq_false_iff.mpr hall
    simp [loadPlugin, loadPluginDir, hall2]
  · intro hvalid
    have hall : name.data.all validPluginChar = true :=
      List.all_eq_true.mpr fun x hx => hvalid x hx
    refine ⟨by simp [loadPluginDir, hall], ?_⟩
    intro hlen
    have hL : name.data.length ≤ 246 := hlen
    have hd : ("plugins/" ++ name ++ "/").data.length ≤ 255 := by
      rw [String.data_append, String.data_append, List.length_append,
        List.length_append]
      have h8 : "plugins/".data.length = 8 := by decide
      have h1 : "/".data.length = 1 := by decide
      omega
    unfold pluginDirOf
    rw [List.take_of_length_le hd]

/-- Witness for C10: `"a/b"` is rejected with no load attempted; `"ab-C_1"`
fits the buffer and proceeds from `plugins/ab-C_1/`. -/
theorem loadPlugin_name_validation_witness :
    (loadPlugin "a/b" = false ∧ loadPluginDir "a/b" = none) ∧
    (loadPluginDir "ab-C_1" = some (pluginDirOf "ab-C_1") ∧
      ("ab-C_1".length ≤ 246 → pluginDirOf "ab-C_1" = "plugins/" ++ "ab-C_1" ++ "/")) :=
  ⟨(loadPlugin_name_validation "a/b").1 ⟨'/', by decide, by decide⟩,
   (loadPlugin_name_validation "ab-C_1").2 (by decide)⟩

/-- A syntactically valid plugin name of 247 characters: one more than fits
`snprintf`'s buffer together with `plugins/` and the trailing slash. -/
def longName : String := String.mk (List.replicate 247 'a')

/-- Counterexample to C10 as originally stated: `longName` is drawn entirely
from `[A-Za-z0-9_-]`, so the load proceeds — but from the truncated
directory, not from `plugins/<name>/`: that path has 256 characters and
`snprintf` keeps only its first 255. -/
theorem loadPlugin_truncation_counterexample :
    longName.data.all validPluginChar = true ∧
    loadPluginDir longName = some (pluginDirOf longName) ∧
    pluginDirOf longName ≠ "plugins/" ++ longName ++ "/" := by
  have hall : longName.data.all validPluginChar = true := by
    apply List.all_eq_true.mpr
    intro x hx
    have hx2 : x = 'a' := List.eq_of_mem_replicate hx
    rw [hx2]
    decide
  have hL : longName.data.length = 247 := by
    show (List.replicate 247 'a').length = 247
    exact List.length_replicate 247 'a'
  refine ⟨hall, by simp [loadPluginDir, hall], ?_⟩
  intro h
  have h255 : (pluginDirOf longName).data.length = 255 := by
    show (("plugins/" ++ longName ++ "/").data.take 255).length = 255
    rw [List.length_take, String.data_append, String.data_append,
      List.length_append, List.length_append]
    have h8 : "plugins/".data.length = 8 := by decide
    have h1 : "/".data.length = 1 := by decide
    omega
  have h256 : ("plugins/" ++ longName ++ "/").data.length = 256 := by
    rw [String.data_append, String.data_append, List.length_append,
      List.length_append]
    have h8 : "plugins/".data.length = 8 := by decide
    have h1 : "/".data.length = 1 := by decide
    omega
  rw [h, h256] at h255
  exact absurd h255 (by decide)

end Multipixel
